import Mathlib

/-!
Verification development for the diff-numerics comparison engine.

The C++ sources are shallowly embedded: `std::string` becomes `List Char`,
`double` arithmetic inside the comparison engine becomes exact rational
arithmetic (`ℚ`; the claims under study quantify over finite values and the
case structure of the algorithms is exact), throwing code returns
`Except DiffError`, and the two input file streams become `List (List Char)`
of lines.  Each definition mirrors one function of the source; the doc
comment names it.  Two C++ identifiers contain words this development cannot
use as name suffixes, so they are abbreviated: `comment_prefix` is the field
`comment_pfx`, and `Formatter::extract_visible_prefix` is
`extract_visible_pfx`.
-/

namespace DiffNumerics

attribute [local semireducible] Rat.mul Rat.add Rat.sub Rat.inv Rat.ofScientific

/-- C++ `std::string`, modelled as a list of characters. -/
abbrev Str := List Char

/-- Convenience conversion from Lean string literals to the model. -/
def chars (s : String) : Str := s.data

/-- The whitespace class used by `std::istream` extraction (`std::isspace`
in the default locale): space, tab, newline, vertical tab, form feed,
carriage return. -/
def isSpaceCh (c : Char) : Bool :=
  c == ' ' || c == '\t' || c == '\n' || c == '\x0b' || c == '\x0c' || c == '\r'

/-- Accumulator loop of `TextParser::tokenize` (`while (iss >> token)`):
`cur` holds the characters of the token being read, in reverse. -/
def tokenizeGo (cur : Str) : Str → List Str
  | [] => if cur = [] then [] else [cur.reverse]
  | c :: rest =>
    if isSpaceCh c then
      if cur = [] then tokenizeGo [] rest else cur.reverse :: tokenizeGo [] rest
    else
      tokenizeGo (c :: cur) rest

/-- `TextParser::tokenize`: split a line into whitespace-separated tokens. -/
def tokenize (line : Str) : List Str := tokenizeGo [] line

/-- `TextParser::line_is_comment`: skip leading spaces and tabs
(`find_first_not_of(" \t")`); an all-whitespace line is never a comment;
otherwise test whether the comment marker is a prefix of the remainder. -/
def line_is_comment (pfx : Str) (line : Str) : Bool :=
  let rest := line.dropWhile (fun c => c == ' ' || c == '\t')
  if rest = [] then false else pfx.isPrefixOf rest

/-- Hexadecimal digit, as accepted by `strtod`'s `0x` forms. -/
def isHexDigitCh (c : Char) : Bool :=
  c.isDigit || ('a' ≤ c && c ≤ 'f') || ('A' ≤ c && c ≤ 'F')

/-- Consume an optional exponent marked by `e1`/`e2` (optional sign, then
decimal digits); if no digit follows the marker, nothing is consumed —
this is the library behaviour of `strtod`/`from_chars` on inputs like
`"1e"`. Returns the remaining input. -/
def afterExpMark (e1 e2 : Char) (s : Str) : Str :=
  match s with
  | c :: rest =>
    if c = e1 ∨ c = e2 then
      match rest with
      | d :: rest2 =>
        if d = '+' ∨ d = '-' then
          if rest2.takeWhile Char.isDigit = [] then s
          else rest2.dropWhile Char.isDigit
        else if Char.isDigit d then rest.dropWhile Char.isDigit
        else s
      | [] => s
    else s
  | [] => s

/-- Decimal exponent part (`e`/`E`). -/
def afterExp (s : Str) : Str := afterExpMark 'e' 'E' s

/-- Binary exponent part of hexadecimal literals (`p`/`P`). -/
def afterPExp (s : Str) : Str := afterExpMark 'p' 'P' s

/-- The decimal floating-point body shared by the `strtod` and
`std::from_chars` models: a nonempty digit string, optionally containing
one decimal point, followed by an optional exponent.  Returns the input
remaining after the longest match, or `none` when no conversion is
possible. -/
def decBody (s : Str) : Option Str :=
  let intD := s.takeWhile Char.isDigit
  let s1 := s.dropWhile Char.isDigit
  match s1 with
  | '.' :: r =>
    if intD = [] ∧ r.takeWhile Char.isDigit = [] then none
    else some (afterExp (r.dropWhile Char.isDigit))
  | _ => if intD = [] then none else some (afterExp s1)

/-- Case-insensitive literal match (the pattern is given in lower case);
returns the remaining input on success. -/
def matchCI (pat : Str) (s : Str) : Option Str :=
  match pat, s with
  | [], rest => some rest
  | _ :: _, [] => none
  | p :: ps, c :: cs => if c.toLower = p then matchCI ps cs else none

/-- Optional `(n-char-sequence)` after `nan`. -/
def nanSuffix (s : Str) : Str :=
  match s with
  | '(' :: r =>
    match r.dropWhile (fun c => c.isAlphanum || c == '_') with
    | ')' :: rest => rest
    | _ => s
  | _ => s

/-- The `INF`/`INFINITY`/`NAN` special forms recognised (case-insensitively)
by both `strtod` and `std::from_chars`. -/
def specialBody (s : Str) : Option Str :=
  match matchCI (chars "infinity") s with
  | some r => some r
  | none =>
    match matchCI (chars "inf") s with
    | some r => some r
    | none =>
      match matchCI (chars "nan") s with
      | some r => some (nanSuffix r)
      | none => none

/-- A decimal number or a special form (shared by both parsers; neither
grammar overlaps the other since one starts with a digit or point and the
other with a letter). -/
def decOrSpecial (s : Str) : Option Str :=
  match decBody s with
  | some r => some r
  | none => specialBody s

/-- Hexadecimal body of `strtod` (caller has checked the `0x`/`0X` head):
hex digits with an optional point and `p`-exponent.  When no hex digit
follows the prefix the conversion is just the leading `"0"`, so parsing
resumes at the `x` — the C library behaviour on `"0x"`. -/
def hexBody (s : Str) : Option Str :=
  match s with
  | _ :: x :: r =>
    let r1 := r.dropWhile isHexDigitCh
    match r1 with
    | '.' :: r2 =>
      if r.takeWhile isHexDigitCh = [] ∧ r2.takeWhile isHexDigitCh = [] then
        some (x :: r)
      else some (afterPExp (r2.dropWhile isHexDigitCh))
    | _ =>
      if r.takeWhile isHexDigitCh = [] then some (x :: r)
      else some (afterPExp r1)
  | _ => none

/-- One optional leading `+` or `-` (accepted by `strtod`). -/
def dropSign : Str → Str
  | '+' :: r => r
  | '-' :: r => r
  | s => s

/-- One optional leading `-` (`std::from_chars` does not accept `+`). -/
def dropMinus : Str → Str
  | '-' :: r => r
  | s => s

/-- Does the input start with a hexadecimal prefix `0x`/`0X`? -/
def hexStart : Str → Bool
  | '0' :: c :: _ => c == 'x' || c == 'X'
  | _ => false

/-- Model of `std::strtod`: skip leading whitespace, one optional sign,
then a hexadecimal, decimal or special body.  Returns the input remaining
after the recognised subject sequence, or `none` when no conversion is
performed.  Out-of-range magnitudes are not modelled (they do not make
`strtod` stop early). -/
def strtodParse (s : Str) : Option Str :=
  let u := dropSign (s.dropWhile isSpaceCh)
  if hexStart u then hexBody u else decOrSpecial u

/-- Legacy `NumericDiff::isNumeric`: `strtod` must make progress and stop
at the terminating NUL, i.e. the recognised subject sequence is the whole
string. -/
def isNumeric (s : Str) : Bool :=
  match strtodParse s with
  | some r => r.isEmpty
  | none => false

/-- Model of `std::from_chars` with `chars_format::general`: like the
decimal/special part of `strtod` but with no whitespace skipping, no `+`
sign and no hexadecimal forms.  (A value whose magnitude overflows makes
the real `from_chars` report `result_out_of_range`; the model ignores
range, which only enlarges the accepted set.) -/
def fromCharsParse (s : Str) : Option Str := decOrSpecial (dropMinus s)

/-- `TextParser::string_is_numeric`: `from_chars` succeeds and consumes
the entire string. -/
def string_is_numeric (s : Str) : Bool :=
  match fromCharsParse s with
  | some r => r.isEmpty
  | none => false

/-- Decimal digit string read as a natural number. -/
def digitsToNat (ds : Str) : Nat :=
  ds.foldl (fun a c => a * 10 + (c.toNat - '0'.toNat)) 0

/-- Value of the optional decimal exponent part that `afterExp` consumes. -/
def expValOf (s : Str) : Int :=
  match s with
  | c :: rest =>
    if c = 'e' ∨ c = 'E' then
      match rest with
      | d :: rest2 =>
        if d = '-' then
          if rest2.takeWhile Char.isDigit = [] then 0
          else -(digitsToNat (rest2.takeWhile Char.isDigit) : Int)
        else if d = '+' then
          if rest2.takeWhile Char.isDigit = [] then 0
          else (digitsToNat (rest2.takeWhile Char.isDigit) : Int)
        else if Char.isDigit d then (digitsToNat (rest.takeWhile Char.isDigit) : Int)
        else 0
      | [] => 0
    else 0
  | [] => 0

/-- Model of `std::stod` on finite decimal literals: sign, integer digits,
optional fraction, optional decimal exponent, evaluated exactly in `ℚ`.
(`compare_lines` only applies it to tokens accepted by
`string_is_numeric`.) -/
def stod (s : Str) : ℚ :=
  let u := s.dropWhile isSpaceCh
  let neg := u.head? = some '-'
  let v := dropSign u
  let intD := v.takeWhile Char.isDigit
  let v1 := v.dropWhile Char.isDigit
  let fracD :=
    match v1 with
    | '.' :: r => r.takeWhile Char.isDigit
    | _ => []
  let v2 :=
    match v1 with
    | '.' :: r => r.dropWhile Char.isDigit
    | _ => v1
  let e := expValOf v2
  let mant : ℚ := (digitsToNat (intD ++ fracD) : ℚ) / (10 : ℚ) ^ fracD.length
  let mag : ℚ := if 0 ≤ e then mant * (10 : ℚ) ^ e.toNat else mant / (10 : ℚ) ^ (-e).toNat
  if neg then -mag else mag

/-- `NumericDiff::big = 1.0E99`, the sentinel difference. -/
def big : ℚ := 10 ^ (99 : ℕ)

/-- `numdiff::NumericDiff::percentage_difference` (the legacy
`NumericDiff::percentageDifference` is character-for-character the same
computation): three tiers — both below threshold, exactly one below
threshold, relative difference against tolerance. -/
def percentage_difference (tol thr v1 v2 : ℚ) : ℚ :=
  if |v1| < thr ∧ |v2| < thr then 0
  else if (|v1| < thr ∧ thr ≤ |v2|) ∨ (|v2| < thr ∧ thr ≤ |v1|) then big
  else if |v1 - v2| / max |v1| |v2| * 100 < tol then 0
  else |v1 - v2| / max |v1| |v2| * 100

/-- The fatal conditions `NumericDiff` raises as `std::runtime_error`:
`"Column count mismatch"` in `compare_lines`, and
`"Error: compare line on empty line resulted wrong."` in the drain loops
of `run` (the internal-consistency check). -/
inductive DiffError where
  | columnCountMismatch
  | internalConsistency
deriving DecidableEq, Repr

/-- The comparison options the engine reads (`NumericDiffOption`).  The
pure-rendering switches (`side_by_side`, `suppress_common_lines`,
`only_equal`, `quiet`, `color_diff_digits`) do not influence the values
the engine computes and are modelled with the rendering functions
instead. -/
structure NumericDiffOption where
  tolerance : ℚ
  threshold : ℚ
  comment_pfx : Str
  columns_to_compare : List Nat
  line_length : Nat
deriving DecidableEq, Repr

/-- `NumericDiffResult`. -/
structure NumericDiffResult where
  n_different_lines : Nat
  max_percentage_err : ℚ
deriving DecidableEq, Repr

/-- The column loop of `NumericDiff::compare_lines`: `i` is the 0-based
column index, `anyE`/`maxD` the `any_error`/`max_diff_this_line`
accumulators.  A column is skipped when a column filter is set and does
not contain the 1-based index; both tokens numeric means compare via
`percentage_difference` against the tolerance. -/
def compareColsGo (cfg : NumericDiffOption) :
    Nat → List (Str × Str) → Bool → ℚ → Bool × ℚ
  | _, [], anyE, maxD => (anyE, maxD)
  | i, (a, b) :: rest, anyE, maxD =>
    if cfg.columns_to_compare ≠ [] ∧ (i + 1) ∉ cfg.columns_to_compare then
      compareColsGo cfg (i + 1) rest anyE maxD
    else if string_is_numeric a && string_is_numeric b then
      let d := percentage_difference cfg.tolerance cfg.threshold (stod a) (stod b)
      if |d| > cfg.tolerance then
        compareColsGo cfg (i + 1) rest true (if |d| > maxD then |d| else maxD)
      else
        compareColsGo cfg (i + 1) rest anyE maxD
    else
      compareColsGo cfg (i + 1) rest anyE maxD

/-- `NumericDiff::compare_lines`: tokenize both lines, fail fatally on a
column count mismatch, otherwise fold the column loop and return
`(differs, worst percentage error)` — the printed output is assembled by
the Formatter/Printer functions modelled separately below. -/
def compare_lines (cfg : NumericDiffOption) (line1 line2 : Str) :
    Except DiffError (Bool × ℚ) :=
  let tokens1 := tokenize line1
  let tokens2 := tokenize line2
  if tokens1.length ≠ tokens2.length then .error .columnCountMismatch
  else
    let r := compareColsGo cfg 0 (tokens1.zip tokens2) false 0
    .ok (if r.1 then (true, r.2) else (false, 0))

/-- Equality of `Except` results is decidable; used to evaluate the model
on concrete inputs. -/
instance {ε α : Type} [DecidableEq ε] [DecidableEq α] : DecidableEq (Except ε α) := fun x y =>
  match x, y with
  | .error a, .error b => decidable_of_iff (a = b) (by simp)
  | .ok a, .ok b => decidable_of_iff (a = b) (by simp)
  | .error _, .ok _ => isFalse (by simp)
  | .ok _, .error _ => isFalse (by simp)

/-- `result.n_different_lines++` / `max_percentage_err` update performed
by `run` on each compared pair. -/
def updateResult (res : NumericDiffResult) (c : Bool × ℚ) : NumericDiffResult :=
  if c.1 then
    { n_different_lines := res.n_different_lines + 1
      max_percentage_err :=
        if c.2 > res.max_percentage_err then c.2 else res.max_percentage_err }
  else res

/-- Advance a stream to its next non-comment line (the inner `while` of
`run`): comment skipping is disabled when the comment marker is empty. -/
def nextNonComment (cfg : NumericDiffOption) : List Str → Option (Str × List Str)
  | [] => none
  | l :: rest =>
    if cfg.comment_pfx ≠ [] ∧ line_is_comment cfg.comment_pfx l then
      nextNonComment cfg rest
    else some (l, rest)

/-- One of the two drain loops at the end of `run`: every remaining
non-comment line is compared against the empty line (`left` tells which
file still has lines), and a strictly positive percentage raises the
internal-consistency error. -/
def drainOrphans (cfg : NumericDiffOption) (left : Bool) : List Str → Except DiffError Unit
  | [] => .ok ()
  | l :: rest =>
    if cfg.comment_pfx ≠ [] ∧ line_is_comment cfg.comment_pfx l then
      drainOrphans cfg left rest
    else
      match (if left then compare_lines cfg l [] else compare_lines cfg [] l) with
      | .error e => .error e
      | .ok c =>
        if c.2 > 0 then .error .internalConsistency
        else drainOrphans cfg left rest

/-- The synchronised loop of `NumericDiff::run` over the two streams of
lines.  When one stream ends while the other still yields a line, the C++
loop compares that line against the cleared (empty) `line1`/`line2` once
and then falls through to the drain loops; the recursion reproduces that
flow exactly. -/
def runAux (cfg : NumericDiffOption) :
    List Str → List Str → NumericDiffResult → Except DiffError NumericDiffResult
  | [], fs2, res =>
    match nextNonComment cfg fs2 with
    | none => .ok res
    | some (l2, r2) =>
      match compare_lines cfg [] l2 with
      | .error e => .error e
      | .ok c =>
        match drainOrphans cfg false r2 with
        | .error e => .error e
        | .ok _ => .ok (updateResult res c)
  | l1 :: r1, fs2, res =>
    if cfg.comment_pfx ≠ [] ∧ line_is_comment cfg.comment_pfx l1 then
      runAux cfg r1 fs2 res
    else
      match nextNonComment cfg fs2 with
      | none =>
        match compare_lines cfg l1 [] with
        | .error e => .error e
        | .ok c =>
          match drainOrphans cfg true r1 with
          | .error e => .error e
          | .ok _ => .ok (updateResult res c)
      | some (l2, r2) =>
        match compare_lines cfg l1 l2 with
        | .error e => .error e
        | .ok c => runAux cfg r1 r2 (updateResult res c)

/-- `NumericDiff::run`, with the two files already read as lists of
lines (file opening is an I/O concern outside the embedding). -/
def run (cfg : NumericDiffOption) (file1 file2 : List Str) :
    Except DiffError NumericDiffResult :=
  runAux cfg file1 file2 { n_different_lines := 0, max_percentage_err := 0 }

/-! ## The ANSI text utility (`Formatter`) and the side-by-side renderer -/

/-- `Formatter::RED`, the start-highlight escape `"\x1b[31m"`. -/
def redSeq : Str := ['\x1b', '[', '3', '1', 'm']

/-- `Formatter::RESET`, the reset escape `"\x1b[0m"`. -/
def resetSeq : Str := ['\x1b', '[', '0', 'm']

/-- The state-passing loop of `Formatter::strip_ansi`: outside an escape,
an `ESC` immediately followed by `[` enters escape mode (both characters
dropped); inside an escape everything up to and including the first `m` is
dropped. -/
def stripA : Bool → Str → Str
  | _, [] => []
  | true, c :: r => if c = 'm' then stripA false r else stripA true r
  | false, c :: r =>
    if c = '\x1b' ∧ r.head? = some '[' then stripA true r
    else c :: stripA false r

/-- `Formatter::strip_ansi`. -/
def strip_ansi (s : Str) : Str := stripA false s

/-- The `in_escape` state after running the strip/copy loop over the
input. -/
def stripState : Bool → Str → Bool
  | b, [] => b
  | true, c :: r => if c = 'm' then stripState false r else stripState true r
  | false, c :: r =>
    if c = '\x1b' ∧ r.head? = some '[' then stripState true r
    else stripState false r

/-- The copy loop of `Formatter::extract_visible_prefix` (before the final
reset fix): `n` is the remaining visible budget; escape sequences are
copied verbatim, visible characters are copied while budget remains, and
the loop breaks at the first visible character with the budget
exhausted. -/
def evpGo : Bool → Nat → Str → Str
  | _, _, [] => []
  | true, n, c :: r => c :: (if c = 'm' then evpGo false n r else evpGo true n r)
  | false, n, c :: r =>
    if c = '\x1b' ∧ r.head? = some '[' then c :: evpGo true n r
    else if 0 < n then c :: evpGo false (n - 1) r
    else []

/-- Index of the last occurrence of `pat` in the input
(`std::string::rfind`). -/
def lastOccur (pat : Str) : Str → Option Nat
  | [] => if pat.isPrefixOf [] then some 0 else none
  | c :: r =>
    match lastOccur pat r with
    | some k => some (k + 1)
    | none => if pat.isPrefixOf (c :: r) then some 0 else none

/-- `Formatter::ensure_ansi_reset`: append a reset when the last red start
occurs and no reset occurs after it. -/
def ensure_ansi_reset (s : Str) : Str :=
  match lastOccur redSeq s, lastOccur resetSeq s with
  | some _, none => s ++ resetSeq
  | some i, some j => if j < i then s ++ resetSeq else s
  | none, _ => s

/-- `Formatter::extract_visible_prefix` (name abbreviated): the copy loop
followed by `ensure_ansi_reset`. -/
def extract_visible_pfx (s : Str) (n : Nat) : Str :=
  ensure_ansi_reset (evpGo false n s)

/-- `std::string::find(pat) != npos`: the pattern occurs somewhere. -/
def containsSeq (pat : Str) : Str → Bool
  | [] => pat.isPrefixOf []
  | c :: r => pat.isPrefixOf (c :: r) || containsSeq pat r

/-- `Formatter::string_is_red`: the red start occurs somewhere. -/
def string_is_red (s : Str) : Bool := containsSeq redSeq s

/-- A run of `n` padding spaces. -/
def pad (n : Nat) : Str := List.replicate n ' '

/-- The index-defaulting of the renderer loop (`i < tokens.size() ?
tokens[i] : ""`), applied once: pair up the two token vectors to the
longer length, missing entries becoming empty strings. -/
def padZip : List Str → List Str → List (Str × Str)
  | [], bs => bs.map (fun b => (([] : Str), b))
  | as, [] => as.map (fun a => (a, ([] : Str)))
  | a :: as, b :: bs => (a, b) :: padZip as bs

/-- The column-assembly loop of `Printer::print_side_by_side_tokens`
(`L` is `line_length`): per column take the configured width (defaulting
to `L` past the end of `col_widths`), widen it to both tokens' stripped
lengths, right-pad each token to the width, and join columns with one
space. -/
def buildColsGo (L : Nat) : List (Str × Str) → List Nat → Str × Str
  | [], _ => ([], [])
  | (t1, t2) :: rest, ws =>
    let s1 := strip_ansi t1
    let s2 := strip_ansi t2
    let colw := max (ws.headD L) (max s1.length s2.length)
    let sep : Str := if rest = [] then [] else [' ']
    let r := buildColsGo L rest ws.tail
    (t1 ++ pad (colw - s1.length) ++ sep ++ r.1,
     t2 ++ pad (colw - s2.length) ++ sep ++ r.2)

/-- `Printer::print_side_by_side_tokens`: build both lines, choose the
separator by the presence of the red escape, truncate both lines to
`line_length` visible characters, and emit `line1 ++ sep ++ line2`; the
result models the emitted pieces `(line1, separator, line2)`. -/
def print_side_by_side_tokens (line_length : Nat) (ts1 ts2 : List Str) (ws : List Nat) :
    Str × Str × Str :=
  let r := buildColsGo line_length (padZip ts1 ts2) ws
  let sep := if string_is_red r.1 || string_is_red r.2 then chars "   |   " else chars "       "
  (extract_visible_pfx r.1 line_length, sep, extract_visible_pfx r.2 line_length)

/-- The `split_exp` lambda of `Formatter::colorize_different_digits`:
split at the first `e`/`E` (`find_first_of`); with no exponent marker the
mantissa is the whole string and the exponent part is empty. -/
def split_exp (s : Str) : Str × Str :=
  let epos := s.findIdx (fun c => c == 'e' || c == 'E')
  (s.take epos, s.drop epos)

/-- The mantissa scan of `colorize_different_digits`: index of the first
differing character of the zipped mantissas, or the zipped length when
none differs. -/
def firstDiffIdx (m1 m2 : Str) : Nat :=
  List.findIdx (fun p => p.1 != p.2) (m1.zip m2)

/-- `Formatter::colorize_different_digits`: mantissa/exponent split,
`diff_start` computation, red suffix wrapping of each mantissa, and the
exponent colouring rules. -/
def colorize_different_digits (s1 s2 : Str) : Str × Str :=
  let m1 := (split_exp s1).1
  let e1 := (split_exp s1).2
  let m2 := (split_exp s2).1
  let e2 := (split_exp s2).2
  let n := min m1.length m2.length
  let d0 := firstDiffIdx m1 m2
  let diff_start := if m1.length ≠ m2.length then min d0 n else d0
  let out1 :=
    if diff_start < m1.length then
      m1.take diff_start ++ redSeq ++ m1.drop diff_start ++ resetSeq
    else m1
  let out2 :=
    if diff_start < m2.length then
      m2.take diff_start ++ redSeq ++ m2.drop diff_start ++ resetSeq
    else m2
  if e1 ≠ [] ∨ e2 ≠ [] then
    if diff_start < n ∨ m1.length ≠ m2.length then
      (out1 ++ (if e1 ≠ [] then redSeq ++ e1 ++ resetSeq else []),
       out2 ++ (if e2 ≠ [] then redSeq ++ e2 ++ resetSeq else []))
    else if e1 = e2 then (out1 ++ e1, out2 ++ e2)
    else
      (out1 ++ (if e1 ≠ [] then redSeq ++ e1 ++ resetSeq else []),
       out2 ++ (if e2 ≠ [] then redSeq ++ e2 ++ resetSeq else []))
  else (out1, out2)

/-! ## Theorems about the value comparator -/

/-- The spec's reading of the value comparator (§4.2), phrased from its
words: both below threshold gives 0; exactly one below gives the sentinel;
otherwise the relative difference is compared with the tolerance. -/
def percentage_difference_spec (tol thr v1 v2 : ℚ) : ℚ :=
  if |v1| < thr ∧ |v2| < thr then 0
  else if (|v1| < thr ∧ ¬ |v2| < thr) ∨ (|v2| < thr ∧ ¬ |v1| < thr) then big
  else if |v1 - v2| / max |v1| |v2| * 100 < tol then 0
  else |v1 - v2| / max |v1| |v2| * 100

/-- A fixed concrete configuration used by witnesses: tolerance 1,
threshold 10⁻⁶, comment marker `#`, no column filter, line length 60
(the option defaults of the tool, with tolerance 1). -/
def cfg0 : NumericDiffOption :=
  { tolerance := 1
    threshold := 1 / 1000000
    comment_pfx := chars "#"
    columns_to_compare := []
    line_length := 60 }

/-- C1: `percentage_difference` returns exactly 0 when both magnitudes are
below the threshold, the large sentinel when exactly one is, and otherwise
0 if the relative difference `|v1 - v2| / max(|v1|, |v2|) * 100` is
strictly below the tolerance, else that relative value — the three cases
in this order.  (Proved for all tolerances and thresholds, so in
particular for the claim's positive ones.) -/
theorem percentage_difference_matches_spec (tol thr v1 v2 : ℚ) :
    percentage_difference tol thr v1 v2 = percentage_difference_spec tol thr v1 v2 := by
  unfold percentage_difference percentage_difference_spec
  simp only [← not_lt]

/-- C6: the value comparator is symmetric in its two value arguments. -/
theorem percentage_difference_symm (tol thr a b : ℚ) :
    percentage_difference tol thr a b = percentage_difference tol thr b a := by
  unfold percentage_difference
  rw [abs_sub_comm a b, max_comm |a| |b|]
  have h1 : (|a| < thr ∧ |b| < thr) ↔ (|b| < thr ∧ |a| < thr) := and_comm
  have h2 : ((|a| < thr ∧ thr ≤ |b|) ∨ (|b| < thr ∧ thr ≤ |a|)) ↔
      ((|b| < thr ∧ thr ≤ |a|) ∨ (|a| < thr ∧ thr ≤ |b|)) := or_comm
  simp only [h1, h2]

/-- C9: for a positive threshold the comparator never returns a negative
value and never a value strictly between 0 and the tolerance: the result
is 0, the sentinel `big = 1.0E99`, or at least the tolerance. -/
theorem percentage_difference_trichotomy (tol thr v1 v2 : ℚ) (hthr : 0 < thr) :
    0 ≤ percentage_difference tol thr v1 v2 ∧
      (percentage_difference tol thr v1 v2 = 0 ∨
        percentage_difference tol thr v1 v2 = big ∨
        tol ≤ percentage_difference tol thr v1 v2) := by
  unfold percentage_difference
  split_ifs with h1 h2 h3
  · exact ⟨le_refl 0, Or.inl rfl⟩
  · refine ⟨?_, Or.inr (Or.inl rfl)⟩
    unfold big
    positivity
  · exact ⟨le_refl 0, Or.inl rfl⟩
  · have hv1 : thr ≤ |v1| := by
      by_contra hc
      push_neg at hc
      rcases lt_or_le |v2| thr with hv2 | hv2
      · exact h1 ⟨hc, hv2⟩
      · exact h2 (Or.inl ⟨hc, hv2⟩)
    have hpos : 0 < max |v1| |v2| := lt_of_lt_of_le hthr (le_max_of_le_left hv1)
    have hnn : 0 ≤ |v1 - v2| / max |v1| |v2| * 100 :=
      mul_nonneg (div_nonneg (abs_nonneg _) hpos.le) (by norm_num)
    exact ⟨hnn, Or.inr (Or.inr (not_lt.mp h3))⟩

/-- Witness for C9 at tolerance 1, threshold 1, values 2 and 4. -/
theorem percentage_difference_trichotomy_witness :
    (0:ℚ) < 1 ∧
      (0 ≤ percentage_difference 1 1 2 4 ∧
        (percentage_difference 1 1 2 4 = 0 ∨
          percentage_difference 1 1 2 4 = big ∨
          (1:ℚ) ≤ percentage_difference 1 1 2 4)) :=
  ⟨by norm_num, percentage_difference_trichotomy 1 1 2 4 (by norm_num)⟩

/-! ## Theorems about the line comparator -/

/-- C2: whenever the two lines tokenize to different column counts, the
line comparator fails fatally with the column-count-mismatch error instead
of producing a comparison outcome. -/
theorem compare_lines_column_count_mismatch (cfg : NumericDiffOption) (line1 line2 : Str)
    (h : (tokenize line1).length ≠ (tokenize line2).length) :
    compare_lines cfg line1 line2 = .error .columnCountMismatch := by
  unfold compare_lines
  simp only [if_pos h]

/-- Witness for C2 on the lines `"1 2"` and `"1"`. -/
theorem compare_lines_column_count_mismatch_witness :
    (tokenize (chars "1 2")).length ≠ (tokenize (chars "1")).length ∧
      compare_lines cfg0 (chars "1 2") (chars "1") = .error .columnCountMismatch :=
  ⟨by decide, compare_lines_column_count_mismatch cfg0 (chars "1 2") (chars "1") (by decide)⟩

/-- The abbreviation used below for the value the column loop compares
against the tolerance. -/
def colDiff (cfg : NumericDiffOption) (p : Str × Str) : ℚ :=
  percentage_difference cfg.tolerance cfg.threshold (stod p.1) (stod p.2)

/-- A column (0-based index `i`) survives the column filter. -/
def survives (cfg : NumericDiffOption) (i : Nat) : Prop :=
  cfg.columns_to_compare = [] ∨ (i + 1) ∈ cfg.columns_to_compare

/-- A surviving numeric column whose percentage difference strictly
exceeds the tolerance — exactly the columns the loop counts. -/
def reportable (cfg : NumericDiffOption) (i : Nat) (p : Str × Str) : Prop :=
  survives cfg i ∧ string_is_numeric p.1 = true ∧ string_is_numeric p.2 = true ∧
    |colDiff cfg p| > cfg.tolerance

/-- Shifting the existence of a reportable column across a cons cell. -/
lemma exists_reportable_cons (cfg : NumericDiffOption) (q : Str × Str)
    (rest : List (Str × Str)) (i : Nat) :
    (∃ j p, (q :: rest).get? j = some p ∧ reportable cfg (i + j) p) ↔
      (reportable cfg i q ∨ ∃ j p, rest.get? j = some p ∧ reportable cfg (i + 1 + j) p) := by
  constructor
  · rintro ⟨j, p, hget, hrep⟩
    cases j with
    | zero =>
      simp only [List.get?_cons_zero, Option.some.injEq] at hget
      subst hget
      exact Or.inl (by simpa using hrep)
    | succ j =>
      refine Or.inr ⟨j, p, by simpa using hget, ?_⟩
      have : i + 1 + j = i + (j + 1) := by omega
      rw [this]
      exact hrep
  · rintro (hq | ⟨j, p, hget, hrep⟩)
    · exact ⟨0, q, by simp, by simpa using hq⟩
    · refine ⟨j + 1, p, by simpa using hget, ?_⟩
      have : i + (j + 1) = i + 1 + j := by omega
      rw [this]
      exact hrep

/-- Invariant of the column loop: the accumulator never decreases, the
`any_error` flag becomes true exactly when some remaining column is
reportable, and every reportable column's difference is bounded by the
final maximum. -/
lemma compareColsGo_char (cfg : NumericDiffOption) :
    ∀ (ps : List (Str × Str)) (i : Nat) (anyE : Bool) (maxD : ℚ),
      maxD ≤ (compareColsGo cfg i ps anyE maxD).2 ∧
        ((compareColsGo cfg i ps anyE maxD).1 = true ↔
          (anyE = true ∨ ∃ j p, ps.get? j = some p ∧ reportable cfg (i + j) p)) ∧
        (∀ j p, ps.get? j = some p → reportable cfg (i + j) p →
          |colDiff cfg p| ≤ (compareColsGo cfg i ps anyE maxD).2)
  | [], i, anyE, maxD => by
    refine ⟨le_refl _, by simp [compareColsGo], ?_⟩
    intro j p hget
    simp at hget
  | (a, b) :: rest, i, anyE, maxD => by
    have IH := compareColsGo_char cfg rest (i + 1)
    by_cases hskip : cfg.columns_to_compare ≠ [] ∧ (i + 1) ∉ cfg.columns_to_compare
    · have hns : ¬ reportable cfg i (a, b) := by
        rintro ⟨hs, -, -, -⟩
        rcases hs with hs | hs
        · exact hskip.1 hs
        · exact hskip.2 hs
      have heq : compareColsGo cfg i ((a, b) :: rest) anyE maxD =
          compareColsGo cfg (i + 1) rest anyE maxD := by
        simp only [compareColsGo]
        rw [if_pos hskip]
      rw [heq]
      obtain ⟨ih0, ih1, ih2⟩ := IH anyE maxD
      refine ⟨ih0, ?_, ?_⟩
      · rw [ih1, exists_reportable_cons]
        constructor
        · rintro (h | h)
          · exact Or.inl h
          · exact Or.inr (Or.inr h)
        · rintro (h | h | h)
          · exact Or.inl h
          · exact absurd h hns
          · exact Or.inr h
      · intro j p hget hrep
        cases j with
        | zero =>
          simp only [List.get?_cons_zero, Option.some.injEq] at hget
          subst hget
          exact absurd (by simpa using hrep) hns
        | succ j =>
          have : i + (j + 1) = i + 1 + j := by omega
          rw [this] at hrep
          exact ih2 j p (by simpa using hget) hrep
    · have hsurv : survives cfg i := by
        unfold survives
        by_contra hc
        push_neg at hc
        exact hskip ⟨hc.1, hc.2⟩
      by_cases hnum : string_is_numeric a && string_is_numeric b
      · by_cases hgt :
          |percentage_difference cfg.tolerance cfg.threshold (stod a) (stod b)| > cfg.tolerance
        · have hrep0 : reportable cfg i (a, b) := by
            refine ⟨hsurv, ?_, ?_, ?_⟩
            · exact (Bool.and_eq_true _ _ ▸ hnum).1
            · exact (Bool.and_eq_true _ _ ▸ hnum).2
            · exact hgt
          have heq : compareColsGo cfg i ((a, b) :: rest) anyE maxD =
              compareColsGo cfg (i + 1) rest true
                (if |percentage_difference cfg.tolerance cfg.threshold (stod a) (stod b)| > maxD
                  then |percentage_difference cfg.tolerance cfg.threshold (stod a) (stod b)|
                  else maxD) := by
            simp only [compareColsGo]
            rw [if_neg hskip, if_pos hnum, if_pos hgt]
          rw [heq]
          obtain ⟨ih0, ih1, ih2⟩ := IH true
            (if |percentage_difference cfg.tolerance cfg.threshold (stod a) (stod b)| > maxD
              then |percentage_difference cfg.tolerance cfg.threshold (stod a) (stod b)|
              else maxD)
          have hmd : maxD ≤
              (if |percentage_difference cfg.tolerance cfg.threshold (stod a) (stod b)| > maxD
                then |percentage_difference cfg.tolerance cfg.threshold (stod a) (stod b)|
                else maxD) := by
            split_ifs with h
            · exact le_of_lt h
            · exact le_refl _
          have hdle : |percentage_difference cfg.tolerance cfg.threshold (stod a) (stod b)| ≤
              (if |percentage_difference cfg.tolerance cfg.threshold (stod a) (stod b)| > maxD
                then |percentage_difference cfg.tolerance cfg.threshold (stod a) (stod b)|
                else maxD) := by
            split_ifs with h
            · exact le_refl _
            · exact not_lt.mp h
          refine ⟨le_trans hmd ih0, ?_, ?_⟩
          · rw [ih1, exists_reportable_cons]
            simp [hrep0]
          · intro j p hget hrep
            cases j with
            | zero =>
              simp only [List.get?_cons_zero, Option.some.injEq] at hget
              subst hget
              exact le_trans hdle ih0
            | succ j =>
              have : i + (j + 1) = i + 1 + j := by omega
              rw [this] at hrep
              exact ih2 j p (by simpa using hget) hrep
        · have hns : ¬ reportable cfg i (a, b) := by
            rintro ⟨-, -, -, h4⟩
            exact hgt h4
          have heq : compareColsGo cfg i ((a, b) :: rest) anyE maxD =
              compareColsGo cfg (i + 1) rest anyE maxD := by
            simp only [compareColsGo]
            rw [if_neg hskip, if_pos hnum, if_neg hgt]
          rw [heq]
          obtain ⟨ih0, ih1, ih2⟩ := IH anyE maxD
          refine ⟨ih0, ?_, ?_⟩
          · rw [ih1, exists_reportable_cons]
            constructor
            · rintro (h | h)
              · exact Or.inl h
              · exact Or.inr (Or.inr h)
            · rintro (h | h | h)
              · exact Or.inl h
              · exact absurd h hns
              · exact Or.inr h
          · intro j p hget hrep
            cases j with
            | zero =>
              simp only [List.get?_cons_zero, Option.some.injEq] at hget
              subst hget
              exact absurd (by simpa using hrep) hns
            | succ j =>
              have : i + (j + 1) = i + 1 + j := by omega
              rw [this] at hrep
              exact ih2 j p (by simpa using hget) hrep
      · have hns : ¬ reportable cfg i (a, b) := by
          rintro ⟨-, h2, h3, -⟩
          exact hnum (by simp [h2, h3])
        have heq : compareColsGo cfg i ((a, b) :: rest) anyE maxD =
            compareColsGo cfg (i + 1) rest anyE maxD := by
          simp only [compareColsGo]
          rw [if_neg hskip, if_neg hnum]
        rw [heq]
        obtain ⟨ih0, ih1, ih2⟩ := IH anyE maxD
        refine ⟨ih0, ?_, ?_⟩
        · rw [ih1, exists_reportable_cons]
          constructor
          · rintro (h | h)
            · exact Or.inl h
            · exact Or.inr (Or.inr h)
          · rintro (h | h | h)
            · exact Or.inl h
            · exact absurd h hns
            · exact Or.inr h
        · intro j p hget hrep
          cases j with
          | zero =>
            simp only [List.get?_cons_zero, Option.some.injEq] at hget
            subst hget
            exact absurd (by simpa using hrep) hns
          | succ j =>
            have : i + (j + 1) = i + 1 + j := by omega
            rw [this] at hrep
            exact ih2 j p (by simpa using hget) hrep

/-- The tolerance-50 configuration exhibiting the boundary case. -/
def cfgBoundary : NumericDiffOption :=
  { tolerance := 50
    threshold := 1 / 1000000
    comment_pfx := chars "#"
    columns_to_compare := []
    line_length := 60 }

/-- C5 counterexample: with tolerance 50, the values 2 and 1 give a
percentage difference of exactly 50 — strictly positive — yet the line
comparator reports no difference, because it only counts columns whose
difference strictly exceeds the tolerance. -/
theorem compare_lines_positive_not_reported :
    percentage_difference cfgBoundary.tolerance cfgBoundary.threshold 2 1 = 50 ∧
      (0:ℚ) < 50 ∧
      compare_lines cfgBoundary (chars "2") (chars "1") = .ok (false, 0) := by
  refine ⟨by decide, by decide, by decide⟩

/-- C5 amended: in a surviving column with two numeric tokens the line
comparator counts the column — in the `differs` flag and in the line's
maximum percentage error — precisely when the absolute percentage
difference strictly exceeds the tolerance.  A result of exactly 0 is never
counted (for a nonnegative tolerance), and neither is any positive result
up to and including the tolerance. -/
theorem compare_lines_reportable_char (cfg : NumericDiffOption) (line1 line2 : Str)
    (b : Bool) (m : ℚ)
    (h : compare_lines cfg line1 line2 = .ok (b, m)) :
    (b = true ↔
      ∃ j p, ((tokenize line1).zip (tokenize line2)).get? j = some p ∧ reportable cfg j p) ∧
    (b = false → m = 0) ∧
    (∀ j p, ((tokenize line1).zip (tokenize line2)).get? j = some p → reportable cfg j p →
      |colDiff cfg p| ≤ m) ∧
    (0 ≤ cfg.tolerance → ∀ j p, colDiff cfg p = 0 → ¬ reportable cfg j p) := by
  have hlast : 0 ≤ cfg.tolerance → ∀ j p, colDiff cfg p = 0 → ¬ reportable cfg j p := by
    intro htol j p hz
    rintro ⟨-, -, -, hgt⟩
    rw [hz] at hgt
    simp only [abs_zero] at hgt
    exact absurd htol (not_le.mpr hgt)
  unfold compare_lines at h
  by_cases hlen : (tokenize line1).length ≠ (tokenize line2).length
  · rw [if_pos hlen] at h
    exact absurd h (by simp)
  · rw [if_neg hlen] at h
    simp only [Except.ok.injEq] at h
    obtain ⟨-, h1, h2⟩ :=
      compareColsGo_char cfg ((tokenize line1).zip (tokenize line2)) 0 false 0
    simp only [Nat.zero_add, Bool.false_eq_true, false_or] at h1 h2
    by_cases hflag : (compareColsGo cfg 0 ((tokenize line1).zip (tokenize line2)) false 0).1 = true
    · rw [if_pos hflag] at h
      have hb : b = true := by
        have := congrArg Prod.fst h
        simpa using this.symm
      have hm : m = (compareColsGo cfg 0 ((tokenize line1).zip (tokenize line2)) false 0).2 := by
        have := congrArg Prod.snd h
        simpa using this.symm
      subst hb
      refine ⟨by simpa using h1.mp hflag, by simp, ?_, hlast⟩
      intro j p hget hrep
      rw [hm]
      exact h2 j p hget hrep
    · rw [if_neg hflag] at h
      have hb : b = false := by
        have := congrArg Prod.fst h
        simpa using this.symm
      have hm : m = 0 := by
        have := congrArg Prod.snd h
        simpa using this.symm
      subst hb
      refine ⟨?_, fun _ => hm, ?_, hlast⟩
      · simp only [Bool.false_eq_true, false_iff]
        intro hex
        exact hflag (h1.mpr hex)
      · intro j p hget hrep
        exact absurd (h1.mpr ⟨j, p, hget, hrep⟩) hflag

/-- Witness for C5 on the single-column lines `"4"` and `"2"` (difference
50%, tolerance 1): the comparator reports the line with error 50. -/
theorem compare_lines_reportable_char_witness :
    compare_lines cfg0 (chars "4") (chars "2") = .ok (true, 50) ∧
      ((true = true) ↔
        ∃ j p, ((tokenize (chars "4")).zip (tokenize (chars "2"))).get? j = some p ∧
          reportable cfg0 j p) ∧
      ((true = false) → (50:ℚ) = 0) ∧
      (∀ j p, ((tokenize (chars "4")).zip (tokenize (chars "2"))).get? j = some p →
        reportable cfg0 j p → |colDiff cfg0 p| ≤ 50) ∧
      (0 ≤ cfg0.tolerance → ∀ j p, colDiff cfg0 p = 0 → ¬ reportable cfg0 j p) :=
  ⟨by decide,
    compare_lines_reportable_char cfg0 (chars "4") (chars "2") true 50 (by decide)⟩

/-! ## Theorems about the drain phase of run -/

/-- A line with no tokens compares against the empty line with outcome
`(false, 0)`. -/
lemma compare_lines_empty_right_ok (cfg : NumericDiffOption) (l : Str)
    (h : tokenize l = []) : compare_lines cfg l [] = .ok (false, 0) := by
  unfold compare_lines
  rw [h]
  rfl

/-- Symmetric version of `compare_lines_empty_right_ok`. -/
lemma compare_lines_empty_left_ok (cfg : NumericDiffOption) (l : Str)
    (h : tokenize l = []) : compare_lines cfg [] l = .ok (false, 0) := by
  unfold compare_lines
  rw [h]
  rfl

/-- A line with at least one token compared against the empty line aborts
with the column-count mismatch. -/
lemma compare_lines_empty_right_mismatch (cfg : NumericDiffOption) (l : Str)
    (h : tokenize l ≠ []) : compare_lines cfg l [] = .error .columnCountMismatch := by
  have h0 : (tokenize l).length ≠ (tokenize ([] : Str)).length := by
    have he : (tokenize ([] : Str)).length = 0 := rfl
    rw [he]
    exact fun hh => h (List.length_eq_zero.mp hh)
  unfold compare_lines
  rw [if_pos h0]

/-- Symmetric version of `compare_lines_empty_right_mismatch`. -/
lemma compare_lines_empty_left_mismatch (cfg : NumericDiffOption) (l : Str)
    (h : tokenize l ≠ []) : compare_lines cfg [] l = .error .columnCountMismatch := by
  have h0 : (tokenize ([] : Str)).length ≠ (tokenize l).length := by
    have he : (tokenize ([] : Str)).length = 0 := rfl
    rw [he]
    exact fun hh => h (List.length_eq_zero.mp hh.symm)
  unfold compare_lines
  rw [if_pos h0]

/-- The only error the line comparator raises is the column-count
mismatch. -/
lemma compare_lines_error_kind (cfg : NumericDiffOption) (l1 l2 : Str) (e : DiffError)
    (h : compare_lines cfg l1 l2 = .error e) : e = .columnCountMismatch := by
  unfold compare_lines at h
  by_cases hl : (tokenize l1).length ≠ (tokenize l2).length
  · rw [if_pos hl] at h
    have := (Except.error.injEq _ _).mp h
    exact this.symm
  · rw [if_neg hl] at h
    exact absurd h (by simp)

/-- The drain loops either succeed (contributing nothing — they return no
statistics at all) or abort with a column-count mismatch; the
internal-consistency error is unreachable. -/
lemma drainOrphans_not_internal (cfg : NumericDiffOption) (left : Bool) (ls : List Str) :
    drainOrphans cfg left ls = .ok () ∨
      drainOrphans cfg left ls = .error .columnCountMismatch := by
  induction ls with
  | nil => exact Or.inl rfl
  | cons l rest ih =>
    by_cases hc : cfg.comment_pfx ≠ [] ∧ line_is_comment cfg.comment_pfx l
    · have heq : drainOrphans cfg left (l :: rest) = drainOrphans cfg left rest := by
        simp only [drainOrphans]
        rw [if_pos hc]
      rw [heq]
      exact ih
    · by_cases ht : tokenize l = []
      · have hcl : (if left then compare_lines cfg l [] else compare_lines cfg [] l) =
            .ok (false, 0) := by
          cases left
          · simpa using compare_lines_empty_left_ok cfg l ht
          · simpa using compare_lines_empty_right_ok cfg l ht
        have heq : drainOrphans cfg left (l :: rest) = drainOrphans cfg left rest := by
          simp only [drainOrphans]
          rw [if_neg hc, hcl]
          norm_num
        rw [heq]
        exact ih
      · have hcl : (if left then compare_lines cfg l [] else compare_lines cfg [] l) =
            .error .columnCountMismatch := by
          cases left
          · simpa using compare_lines_empty_left_mismatch cfg l ht
          · simpa using compare_lines_empty_right_mismatch cfg l ht
        have heq : drainOrphans cfg left (l :: rest) = .error .columnCountMismatch := by
          simp only [drainOrphans]
          rw [if_neg hc, hcl]
        rw [heq]
        exact Or.inr rfl

/-- The synchronised loop and the drains never raise the
internal-consistency error: every fatal outcome of `run` is a
column-count mismatch. -/
lemma runAux_not_internal (cfg : NumericDiffOption) :
    ∀ (fs1 fs2 : List Str) (res : NumericDiffResult),
      runAux cfg fs1 fs2 res ≠ .error .internalConsistency
  | [], fs2, res => by
    simp only [runAux]
    cases hnc : nextNonComment cfg fs2 with
    | none => simp
    | some pr =>
      obtain ⟨l2, r2⟩ := pr
      cases hcl : compare_lines cfg [] l2 with
      | error e =>
        have he := compare_lines_error_kind cfg [] l2 e hcl
        subst he
        simp [hcl]
      | ok c =>
        rcases drainOrphans_not_internal cfg false r2 with hd | hd <;> simp [hcl, hd]
  | l1 :: r1, fs2, res => by
    by_cases hc : cfg.comment_pfx ≠ [] ∧ line_is_comment cfg.comment_pfx l1
    · have heq : runAux cfg (l1 :: r1) fs2 res = runAux cfg r1 fs2 res := by
        simp only [runAux]
        rw [if_pos hc]
      rw [heq]
      exact runAux_not_internal cfg r1 fs2 res
    · have heq0 : runAux cfg (l1 :: r1) fs2 res =
          (match nextNonComment cfg fs2 with
          | none =>
            match compare_lines cfg l1 [] with
            | .error e => .error e
            | .ok c =>
              match drainOrphans cfg true r1 with
              | .error e => .error e
              | .ok _ => .ok (updateResult res c)
          | some (l2, r2) =>
            match compare_lines cfg l1 l2 with
            | .error e => .error e
            | .ok c => runAux cfg r1 r2 (updateResult res c)) := by
        simp only [runAux]
        rw [if_neg hc]
      rw [heq0]
      cases hnc : nextNonComment cfg fs2 with
      | none =>
        cases hcl : compare_lines cfg l1 [] with
        | error e =>
          have he := compare_lines_error_kind cfg l1 [] e hcl
          subst he
          simp [hcl]
        | ok c =>
          rcases drainOrphans_not_internal cfg true r1 with hd | hd <;> simp [hcl, hd]
      | some pr =>
        obtain ⟨l2, r2⟩ := pr
        cases hcl : compare_lines cfg l1 l2 with
        | error e =>
          have he := compare_lines_error_kind cfg l1 l2 e hcl
          subst he
          simp [hcl]
        | ok c =>
          simpa [hcl] using runAux_not_internal cfg r1 r2 (updateResult res c)

/-- C3 counterexample: file1 has the orphan non-comment line `"3"`; its
drain comparison against the empty line does not yield a positive
percentage error (so the claim predicts the drained line contributes
nothing and the run completes), yet `run` aborts — with the column-count
mismatch, not the internal-consistency error. -/
theorem run_drain_counterexample :
    run cfg0 [chars "1 2", chars "3"] [chars "1 2"] = .error .columnCountMismatch ∧
      run cfg0 [chars "1 2", chars "3"] [chars "1 2"] ≠ .error .internalConsistency :=
  ⟨by decide, by decide⟩

/-- C3 amended: every remaining non-comment line is compared against an
empty line, but an orphan line with one or more tokens makes that
comparison itself abort with the column-count mismatch before any
percentage error exists; an orphan line with no tokens yields outcome
`(false, 0)`, passing the zero-percentage check.  Hence the drain loops
never raise the internal-consistency error and never alter the Result
(they carry no statistics), and `run` never fails with the
internal-consistency error. -/
theorem run_drain_amended (cfg : NumericDiffOption) (l : Str) :
    (tokenize l = [] →
      compare_lines cfg l [] = .ok (false, 0) ∧ compare_lines cfg [] l = .ok (false, 0)) ∧
    (tokenize l ≠ [] →
      compare_lines cfg l [] = .error .columnCountMismatch ∧
        compare_lines cfg [] l = .error .columnCountMismatch) ∧
    (∀ left ls, drainOrphans cfg left ls = .ok () ∨
        drainOrphans cfg left ls = .error .columnCountMismatch) ∧
    (∀ fs1 fs2 res, runAux cfg fs1 fs2 res ≠ .error .internalConsistency) := by
  refine ⟨?_, ?_, ?_, ?_⟩
  · intro h
    exact ⟨compare_lines_empty_right_ok cfg l h, compare_lines_empty_left_ok cfg l h⟩
  · intro h
    exact ⟨compare_lines_empty_right_mismatch cfg l h,
      compare_lines_empty_left_mismatch cfg l h⟩
  · intro left ls
    exact drainOrphans_not_internal cfg left ls
  · intro fs1 fs2 res
    exact runAux_not_internal cfg fs1 fs2 res

/-- Witness for C3 (amended) at the orphan line `"5"`. -/
theorem run_drain_amended_witness :
    tokenize (chars "5") ≠ [] ∧
      compare_lines cfg0 (chars "5") [] = .error .columnCountMismatch ∧
      compare_lines cfg0 [] (chars "5") = .error .columnCountMismatch :=
  ⟨by decide, (run_drain_amended cfg0 (chars "5")).2.1 (by decide)⟩

/-! ## Theorems about the ANSI width logic -/

/-- The copy loop preserves the head character whenever it emits
anything. -/
lemma evpGo_head : ∀ (b : Bool) (n : Nat) (s : Str),
    evpGo b n s = [] ∨ (evpGo b n s).head? = s.head?
  | b, _, [] => Or.inl (by cases b <;> rfl)
  | true, n, c :: r => Or.inr (by simp [evpGo])
  | false, n, c :: r => by
    by_cases h : c = '\x1b' ∧ r.head? = some '['
    · exact Or.inr (by simp [evpGo, h.1, h.2])
    · by_cases hn : 0 < n
      · exact Or.inr (by simp [evpGo, h, hn])
      · exact Or.inl (by simp [evpGo, h, hn])

/-- Core of the width invariant: stripping the copy loop's output yields
exactly `min budget (stripped length)` characters, in either starting
state. -/
lemma stripA_evpGo_length : ∀ (s : Str) (b : Bool) (n : Nat),
    (stripA b (evpGo b n s)).length = min n (stripA b s).length
  | [], b, n => by simp [evpGo, stripA]
  | c :: r, true, n => by
    have IH := stripA_evpGo_length r
    by_cases hm : c = 'm'
    · have h1 : evpGo true n (c :: r) = c :: evpGo false n r := by
        simp only [evpGo]
        rw [if_pos hm]
      have h2 : ∀ x, stripA true (c :: x) = stripA false x := fun x => by
        simp only [stripA]
        rw [if_pos hm]
      rw [h1, h2, h2]
      exact IH false n
    · have h1 : evpGo true n (c :: r) = c :: evpGo true n r := by
        simp only [evpGo]
        rw [if_neg hm]
      have h2 : ∀ x, stripA true (c :: x) = stripA true x := fun x => by
        simp only [stripA]
        rw [if_neg hm]
      rw [h1, h2, h2]
      exact IH true n
  | c :: r, false, n => by
    have IH := stripA_evpGo_length r
    by_cases hesc : c = '\x1b' ∧ r.head? = some '['
    · obtain ⟨hc, hd⟩ := hesc
      subst hc
      cases r with
      | nil => simp at hd
      | cons d rr =>
        simp only [List.head?_cons, Option.some.injEq] at hd
        subst hd
        have IH2 := stripA_evpGo_length rr
        have h1 : evpGo false n ('\x1b' :: '[' :: rr) = '\x1b' :: '[' :: evpGo true n rr := rfl
        have h2 : ∀ x, stripA false ('\x1b' :: '[' :: x) = stripA true x := fun x => rfl
        rw [h1, h2, h2]
        exact IH2 true n
    · by_cases hn : 0 < n
      · have h1 : evpGo false n (c :: r) = c :: evpGo false (n - 1) r := by
          simp only [evpGo]
          rw [if_neg hesc, if_pos hn]
        have h2 : ¬(c = '\x1b' ∧ (evpGo false (n - 1) r).head? = some '[') := by
          rintro ⟨hc, hh⟩
          rcases evpGo_head false (n - 1) r with he | he
          · rw [he] at hh
            simp at hh
          · rw [he] at hh
            exact hesc ⟨hc, hh⟩
        have h3 : stripA false (c :: evpGo false (n - 1) r) =
            c :: stripA false (evpGo false (n - 1) r) := by
          simp only [stripA]
          rw [if_neg h2]
        have h4 : stripA false (c :: r) = c :: stripA false r := by
          simp only [stripA]
          rw [if_neg hesc]
        rw [h1, h3, h4]
        simp only [List.length_cons]
        rw [IH false (n - 1)]
        omega
      · have hn0 : n = 0 := by omega
        subst hn0
        have h1 : evpGo false 0 (c :: r) = [] := by
          simp only [evpGo]
          rw [if_neg hesc]
          simp
        rw [h1]
        simp [stripA]

/-- The three one-step equations of the strip loop on a cons cell. -/
lemma stripA_cons_true (c : Char) (x : Str) :
    stripA true (c :: x) = if c = 'm' then stripA false x else stripA true x := by
  simp only [stripA]

/-- Visible-character step of the strip loop. -/
lemma stripA_cons_vis (c : Char) (x : Str) (h : ¬(c = '\x1b' ∧ x.head? = some '[')) :
    stripA false (c :: x) = c :: stripA false x := by
  simp only [stripA]
  rw [if_neg h]

/-- Escape-start step of the strip loop. -/
lemma stripA_cons_esc (c : Char) (x : Str) (h : c = '\x1b' ∧ x.head? = some '[') :
    stripA false (c :: x) = stripA true x := by
  simp only [stripA]
  rw [if_pos h]

/-- Appending the reset escape never changes the stripped length, from any
state (the reset is all escape from a normal state, all skipped from an
escape state, and a trailing bare `ESC` stays visible because the reset
starts with `ESC`, not `[`). -/
lemma stripA_append_reset : ∀ (x : Str) (b : Bool),
    (stripA b (x ++ resetSeq)).length = (stripA b x).length
  | [], b => by cases b <;> rfl
  | c :: r, true => by
    have IH := stripA_append_reset r
    rw [List.cons_append, stripA_cons_true, stripA_cons_true]
    by_cases hm : c = 'm'
    · rw [if_pos hm, if_pos hm]
      exact IH false
    · rw [if_neg hm, if_neg hm]
      exact IH true
  | c :: r, false => by
    have IH := stripA_append_reset r
    by_cases hesc : c = '\x1b' ∧ r.head? = some '['
    · have hne : r ≠ [] := by
        rintro rfl
        simp at hesc
      have hh : (r ++ resetSeq).head? = r.head? := by
        cases r with
        | nil => exact absurd rfl hne
        | cons d rr => simp
      rw [List.cons_append, stripA_cons_esc c _ ⟨hesc.1, by rw [hh]; exact hesc.2⟩,
        stripA_cons_esc c r hesc]
      exact IH true
    · cases r with
      | nil =>
        have hcond : ¬(c = '\x1b' ∧ (([] : Str) ++ resetSeq).head? = some '[') := by
          rintro ⟨-, hh⟩
          simp [resetSeq] at hh
        rw [List.cons_append, stripA_cons_vis c _ hcond,
          stripA_cons_vis c [] (by simp)]
        have hreset : stripA false (([] : Str) ++ resetSeq) = [] := rfl
        rw [hreset]
        rfl
      | cons d rr =>
        have hcond : ¬(c = '\x1b' ∧ ((d :: rr) ++ resetSeq).head? = some '[') := by
          simpa using hesc
        rw [List.cons_append, stripA_cons_vis c _ hcond, stripA_cons_vis c (d :: rr) hesc]
        simpa using IH false

/-- C7: the stripped length of `extract_visible_prefix(s, n)` is exactly
`min n (stripped length of s)` — the extraction keeps exactly
`min(n, visible length)` visible characters, whatever escape sequences the
input carries. -/
theorem extract_visible_pfx_length (s : Str) (n : Nat) :
    (strip_ansi (extract_visible_pfx s n)).length = min n (strip_ansi s).length := by
  unfold extract_visible_pfx strip_ansi
  have hbase := stripA_evpGo_length s false n
  unfold ensure_ansi_reset
  cases h1 : lastOccur redSeq (evpGo false n s) with
  | none =>
    simp only [h1]
    exact hbase
  | some i =>
    cases h2 : lastOccur resetSeq (evpGo false n s) with
    | none =>
      simp only [h1, h2]
      rw [stripA_append_reset]
      exact hbase
    | some j =>
      by_cases hij : j < i
      · simp only [h1, h2, if_pos hij]
        rw [stripA_append_reset]
        exact hbase
      · simp only [h1, h2, if_neg hij]
        exact hbase

/-! ## Theorems about the side-by-side renderer (truncation behaviour) -/

/-- One-step equations of the escape-state tracker. -/
lemma stripState_cons_true (c : Char) (x : Str) :
    stripState true (c :: x) =
      if c = 'm' then stripState false x else stripState true x := by
  simp only [stripState]

/-- Normal-state step of the escape-state tracker. -/
lemma stripState_cons_false (c : Char) (x : Str) :
    stripState false (c :: x) =
      if c = '\x1b' ∧ x.head? = some '[' then stripState true x else stripState false x := by
  simp only [stripState]

/-- ANSI-closed strings: the strip loop ends outside an escape sequence
and the string does not end in a bare `ESC` (whose classification a
following `[` would change).  Raw tokens and colorizer outputs are
closed. -/
def ansiClosed (x : Str) : Prop :=
  stripState false x = false ∧ x.getLast? ≠ some '\x1b'

/-- The empty string is closed. -/
lemma ansiClosed_nil : ansiClosed ([] : Str) := ⟨rfl, by simp⟩

/-- Closedness is decidable (used to evaluate witnesses). -/
instance (x : Str) : Decidable (ansiClosed x) :=
  inferInstanceAs (Decidable (stripState false x = false ∧ x.getLast? ≠ some '\x1b'))

/-- Stripping distributes over append when the left part is ANSI-closed
(in the starting state `b`; `stripState b x = false` and no trailing bare
`ESC`). -/
lemma stripA_append (y : Str) : ∀ (x : Str) (b : Bool),
    stripState b x = false → x.getLast? ≠ some '\x1b' →
    stripA b (x ++ y) = stripA b x ++ stripA false y
  | [], b, h, _ => by
    cases b
    · simp [stripA]
    · exact absurd h (by simp [stripState])
  | [c], b, h, hl => by
    have hc : c ≠ '\x1b' := by
      intro hcc
      exact hl (by simp [hcc])
    cases b
    · have hcond : ¬(c = '\x1b' ∧ (([] : Str) ++ y).head? = some '[') := by
        rintro ⟨hcc, -⟩
        exact hc hcc
      rw [List.cons_append, stripA_cons_vis c _ hcond,
        stripA_cons_vis c [] (by simp [hc])]
      simp [stripA]
    · have hm : c = 'm' := by
        by_contra hmm
        rw [stripState_cons_true, if_neg hmm] at h
        exact absurd h (by simp [stripState])
      rw [List.cons_append, stripA_cons_true, if_pos hm, stripA_cons_true, if_pos hm]
      simp [stripA]
  | c :: d :: r, b, h, hl => by
    have hl2 : (d :: r).getLast? ≠ some '\x1b' := by
      rwa [List.getLast?_cons_cons] at hl
    cases b
    · by_cases hesc : c = '\x1b' ∧ (d :: r).head? = some '['
      · have hesc2 : c = '\x1b' ∧ ((d :: r) ++ y).head? = some '[' := by
          refine ⟨hesc.1, ?_⟩
          simpa using hesc.2
        rw [stripState_cons_false, if_pos hesc] at h
        rw [List.cons_append, stripA_cons_esc c _ hesc2, stripA_cons_esc c _ hesc]
        exact stripA_append y (d :: r) true h hl2
      · have hesc2 : ¬(c = '\x1b' ∧ ((d :: r) ++ y).head? = some '[') := by
          simpa using hesc
        rw [stripState_cons_false, if_neg hesc] at h
        rw [List.cons_append, stripA_cons_vis c _ hesc2, stripA_cons_vis c _ hesc]
        rw [stripA_append y (d :: r) false h hl2]
        simp
    · rw [stripState_cons_true] at h
      by_cases hm : c = 'm'
      · rw [if_pos hm] at h
        rw [List.cons_append, stripA_cons_true, if_pos hm, stripA_cons_true, if_pos hm]
        exact stripA_append y (d :: r) false h hl2
      · rw [if_neg hm] at h
        rw [List.cons_append, stripA_cons_true, if_neg hm, stripA_cons_true, if_neg hm]
        exact stripA_append y (d :: r) true h hl2

/-- `strip_ansi` distributes over append after an ANSI-closed left
part. -/
lemma strip_ansi_append (x y : Str) (h : ansiClosed x) :
    strip_ansi (x ++ y) = strip_ansi x ++ strip_ansi y :=
  stripA_append y x false h.1 h.2

/-- All-space strings are ANSI-closed. -/
lemma allSpaces_closed : ∀ (x : Str), (∀ c ∈ x, c = ' ') →
    stripState false x = false ∧ x.getLast? ≠ some '\x1b'
  | [], _ => ansiClosed_nil
  | c :: r, h => by
    have hc : c = ' ' := h c (by simp)
    have hr := allSpaces_closed r (fun d hd => h d (by simp [hd]))
    constructor
    · have hcond : ¬(c = '\x1b' ∧ r.head? = some '[') := by
        rintro ⟨hce, -⟩
        rw [hc] at hce
        exact absurd hce (by decide)
      rw [stripState_cons_false, if_neg hcond]
      exact hr.1
    · cases r with
      | nil =>
        rw [hc]
        simp
      | cons d t =>
        rw [List.getLast?_cons_cons]
        exact hr.2

/-- The padding run is ANSI-closed. -/
lemma ansiClosed_pad (n : Nat) : ansiClosed (pad n) :=
  allSpaces_closed (pad n) (fun _ hc => List.eq_of_mem_replicate hc)

/-- Unfolded form of one column-assembly step. -/
lemma buildColsGo_cons (L : Nat) (t1 t2 : Str) (rest : List (Str × Str)) (ws : List Nat) :
    buildColsGo L ((t1, t2) :: rest) ws =
      (t1 ++ pad (max (ws.headD L) (max (strip_ansi t1).length (strip_ansi t2).length) -
          (strip_ansi t1).length) ++
        (if rest = [] then ([] : Str) else [' ']) ++ (buildColsGo L rest ws.tail).1,
       t2 ++ pad (max (ws.headD L) (max (strip_ansi t1).length (strip_ansi t2).length) -
          (strip_ansi t2).length) ++
        (if rest = [] then ([] : Str) else [' ']) ++ (buildColsGo L rest ws.tail).2) := by
  simp only [buildColsGo]

/-- Every column's token survives, in full visible form, inside the
assembled (pre-truncation) side-by-side line. -/
lemma buildColsGo_infix (L : Nat) : ∀ (ps : List (Str × Str)) (ws : List Nat),
    (∀ p ∈ ps, ansiClosed p.1 ∧ ansiClosed p.2) →
    ∀ p ∈ ps,
      strip_ansi p.1 <:+: strip_ansi (buildColsGo L ps ws).1 ∧
      strip_ansi p.2 <:+: strip_ansi (buildColsGo L ps ws).2
  | [], _, _, p, hp => absurd hp (by simp)
  | (t1, t2) :: rest, ws, hcl, p, hp => by
    have hhead := hcl (t1, t2) (by simp)
    have hsep0 : ansiClosed (if rest = [] then ([] : Str) else [' ']) := by
      by_cases hr : rest = []
      · rw [if_pos hr]
        exact ansiClosed_nil
      · rw [if_neg hr]
        exact allSpaces_closed [' '] (by simp)
    rw [buildColsGo_cons]
    have hdec : ∀ (t : Str) (k : Nat) (tail : Str), ansiClosed t →
        strip_ansi (t ++ pad k ++ (if rest = [] then ([] : Str) else [' ']) ++ tail) =
          strip_ansi t ++ strip_ansi (pad k) ++
            strip_ansi (if rest = [] then ([] : Str) else [' ']) ++ strip_ansi tail := by
      intro t k tail ht
      rw [List.append_assoc, List.append_assoc,
        strip_ansi_append t _ ht,
        strip_ansi_append (pad k) _ (ansiClosed_pad k),
        strip_ansi_append _ tail hsep0]
      simp [List.append_assoc]
    rcases List.mem_cons.mp hp with hpe | hmem
    · have hp1 : p.1 = t1 := by rw [hpe]
      have hp2 : p.2 = t2 := by rw [hpe]
      rw [hp1, hp2]
      constructor
      · rw [hdec t1 _ _ hhead.1]
        rw [List.append_assoc, List.append_assoc]
        exact (List.prefix_append _ _).isInfix
      · rw [hdec t2 _ _ hhead.2]
        rw [List.append_assoc, List.append_assoc]
        exact (List.prefix_append _ _).isInfix
    · have IH := buildColsGo_infix L rest ws.tail
        (fun q hq => hcl q (by simp [hq])) p hmem
      constructor
      · rw [hdec t1 _ _ hhead.1]
        exact IH.1.trans (List.IsSuffix.isInfix (List.suffix_append _ _))
      · rw [hdec t2 _ _ hhead.2]
        exact IH.2.trans (List.IsSuffix.isInfix (List.suffix_append _ _))

/-- A pair produced by the index-defaulting comes from the token vectors
(or is the empty default). -/
lemma padZip_mem : ∀ (as bs : List Str) (p : Str × Str), p ∈ padZip as bs →
    (p.1 ∈ as ∨ p.1 = []) ∧ (p.2 ∈ bs ∨ p.2 = [])
  | [], bs, p, hp => by
    simp only [padZip, List.mem_map] at hp
    obtain ⟨b, hb, hpe⟩ := hp
    rw [← hpe]
    exact ⟨Or.inr rfl, Or.inl hb⟩
  | a :: as, [], p, hp => by
    simp only [padZip, List.mem_map] at hp
    obtain ⟨x, hx, hpe⟩ := hp
    rw [← hpe]
    exact ⟨Or.inl hx, Or.inr rfl⟩
  | a :: as, b :: bs, p, hp => by
    rcases List.mem_cons.mp (by simpa [padZip] using hp) with hpe | hmem
    · rw [hpe]
      exact ⟨Or.inl (by simp), Or.inl (by simp)⟩
    · obtain ⟨h1, h2⟩ := padZip_mem as bs p hmem
      constructor
      · rcases h1 with h | h
        · exact Or.inl (by simp [h])
        · exact Or.inr h
      · rcases h2 with h | h
        · exact Or.inl (by simp [h])
        · exact Or.inr h

/-- C4 counterexample: token `"12345678"` is wider than its configured
column width 3, and with `line_length = 4` the rendered (emitted) line is
`"1234"` — the token's visible characters are not contained in the
rendered line, because the final truncation to `line_length` visible
characters cuts it. -/
theorem print_side_by_side_truncation_counterexample :
    strip_ansi (print_side_by_side_tokens 4 [chars "12345678"] [chars "1"] [3]).1 =
        chars "1234" ∧
      ¬ strip_ansi (chars "12345678") <:+:
          strip_ansi (print_side_by_side_tokens 4 [chars "12345678"] [chars "1"] [3]).1 := by
  have hline : strip_ansi (print_side_by_side_tokens 4 [chars "12345678"] [chars "1"] [3]).1 =
      chars "1234" := by decide
  refine ⟨hline, ?_⟩
  intro hinf
  rw [hline] at hinf
  have hle := hinf.length_le
  have h8 : (strip_ansi (chars "12345678")).length = 8 := by decide
  have h4 : (chars "1234").length = 4 := by decide
  omega

/-- C4 amended: the column-assembly loop itself never shortens a token:
for ANSI-closed tokens, every column's token appears with its visible
characters in full (as a contiguous substring) in the built side-by-side
line of its side, before the final truncation of the whole line to
`line_length` visible characters — the column expands instead of cutting
the token; only that final line truncation can shorten it. -/
theorem build_line_contains_tokens (L : Nat) (ts1 ts2 : List Str) (ws : List Nat)
    (h1 : ∀ t ∈ ts1, ansiClosed t) (h2 : ∀ t ∈ ts2, ansiClosed t) :
    ∀ p ∈ padZip ts1 ts2,
      strip_ansi p.1 <:+: strip_ansi (buildColsGo L (padZip ts1 ts2) ws).1 ∧
      strip_ansi p.2 <:+: strip_ansi (buildColsGo L (padZip ts1 ts2) ws).2 := by
  apply buildColsGo_infix
  intro p hp
  obtain ⟨hp1, hp2⟩ := padZip_mem ts1 ts2 p hp
  constructor
  · rcases hp1 with h | h
    · exact h1 _ h
    · rw [h]
      exact ansiClosed_nil
  · rcases hp2 with h | h
    · exact h2 _ h
    · rw [h]
      exact ansiClosed_nil

/-- Witness for C4 (amended) on tokens `"ab"`/`"c"` with column width 1
and line length 5. -/
theorem build_line_contains_tokens_witness :
    (∀ t ∈ [chars "ab"], ansiClosed t) ∧
      ∀ p ∈ padZip [chars "ab"] [chars "c"],
        strip_ansi p.1 <:+: strip_ansi (buildColsGo 5 (padZip [chars "ab"] [chars "c"]) [1]).1 ∧
        strip_ansi p.2 <:+: strip_ansi (buildColsGo 5 (padZip [chars "ab"] [chars "c"]) [1]).2 :=
  ⟨by decide,
    build_line_contains_tokens 5 [chars "ab"] [chars "c"] [1] (by decide) (by decide)⟩

/-! ## Theorems about digit-level colorization -/

/-- The spec's `diff_start` (§4.3b), phrased from its words: the index of
the first differing character, the shorter mantissa's length when one is a
strict prefix of the other, and the full shared length when they are
identical. -/
def specDiffStart : Str → Str → Nat
  | a :: as, b :: bs => if a = b then specDiffStart as bs + 1 else 0
  | _, _ => 0

/-- The spec's highlighting step (§4.3c): when `d` lies within the string,
wrap the suffix from `d` onward in the highlight pair; otherwise leave the
string untouched. -/
def highlightFrom (d : Nat) (s : Str) : Str :=
  if d < s.length then s.take d ++ redSeq ++ s.drop d ++ resetSeq else s

/-- The code's first-differing-index scan agrees with the spec's
description. -/
lemma firstDiffIdx_eq_spec : ∀ (m1 m2 : Str), firstDiffIdx m1 m2 = specDiffStart m1 m2
  | [], [] => rfl
  | [], _ :: _ => rfl
  | _ :: _, [] => rfl
  | a :: as, b :: bs => by
    unfold firstDiffIdx specDiffStart
    rw [List.zip_cons_cons, List.findIdx_cons]
    by_cases h : a = b
    · subst h
      have hpa : (((a, a).1 != (a, a).2) : Bool) = false := by simp
      rw [hpa, cond_false, if_pos rfl]
      exact congrArg (· + 1) (firstDiffIdx_eq_spec as bs)
    · have hpa : (((a, b).1 != (a, b).2) : Bool) = true := by
        simpa using h
      rw [hpa, cond_true, if_neg h]

/-- Strings without an exponent marker split into themselves and an empty
exponent. -/
lemma split_exp_noExp (s : Str) (h : ∀ c ∈ s, (c == 'e' || c == 'E') = false) :
    split_exp s = (s, []) := by
  unfold split_exp
  have hidx : s.findIdx (fun c => c == 'e' || c == 'E') = s.length :=
    List.findIdx_eq_length_of_false h
  rw [hidx]
  simp

/-- C8: on numeric strings without exponents, digit-level colorization
highlights on each side exactly the suffix starting at the spec's
`diff_start` — the index of the first differing character, or the shorter
string's length when one is a strict prefix of the other — and leaves the
shared prefix unhighlighted. -/
theorem colorize_noExp_highlights_suffix (s1 s2 : Str)
    (h1 : ∀ c ∈ s1, (c == 'e' || c == 'E') = false)
    (h2 : ∀ c ∈ s2, (c == 'e' || c == 'E') = false) :
    colorize_different_digits s1 s2 =
      (highlightFrom (specDiffStart s1 s2) s1, highlightFrom (specDiffStart s1 s2) s2) := by
  have hd0 : firstDiffIdx s1 s2 = specDiffStart s1 s2 := firstDiffIdx_eq_spec s1 s2
  have hle : firstDiffIdx s1 s2 ≤ min s1.length s2.length := by
    have h := @List.findIdx_le_length (Char × Char) (fun p => p.1 != p.2) (s1.zip s2)
    simpa [firstDiffIdx, List.length_zip] using h
  have hds : (if s1.length ≠ s2.length
        then min (firstDiffIdx s1 s2) (min s1.length s2.length)
        else firstDiffIdx s1 s2) = specDiffStart s1 s2 := by
    by_cases h : s1.length ≠ s2.length
    · rw [if_pos h, min_eq_left hle, hd0]
    · rw [if_neg h, hd0]
  simp only [colorize_different_digits]
  rw [split_exp_noExp s1 h1, split_exp_noExp s2 h2]
  simp only [ne_eq, not_true_eq_false, or_self, if_false, ite_false]
  rw [hds]
  rfl

/-- Witness for C8, the spec's Scenario F: `"3.14159"` against
`"3.14259"` highlights from index 4 on both sides, leaving `"3.14"`
unhighlighted. -/
theorem colorize_noExp_highlights_suffix_witness :
    (∀ c ∈ chars "3.14159", (c == 'e' || c == 'E') = false) ∧
      specDiffStart (chars "3.14159") (chars "3.14259") = 4 ∧
      colorize_different_digits (chars "3.14159") (chars "3.14259") =
        (highlightFrom 4 (chars "3.14159"), highlightFrom 4 (chars "3.14259")) := by
  refine ⟨by decide, by decide, ?_⟩
  have h := colorize_noExp_highlights_suffix (chars "3.14159") (chars "3.14259")
    (by decide) (by decide)
  rw [h]
  have h4 : specDiffStart (chars "3.14159") (chars "3.14259") = 4 := by decide
  rw [h4]

/-! ## Theorems comparing the two numeric-token classifiers -/

/-- Dropping the minus does nothing on other heads. -/
lemma dropMinus_cons (c : Char) (cs : Str) (h : c ≠ '-') :
    dropMinus (c :: cs) = c :: cs := by
  unfold dropMinus
  split
  · next heq =>
    injection heq with h1 _
    exact absurd h1 h
  · rfl

/-- When the head is not `+`, both sign-droppers agree. -/
lemma dropSign_eq_dropMinus (c : Char) (cs : Str) (h : c ≠ '+') :
    dropSign (c :: cs) = dropMinus (c :: cs) := by
  by_cases hm : c = '-'
  · subst hm
    rfl
  · have h1 : dropSign (c :: cs) = c :: cs := by
      unfold dropSign
      split
      · next heq =>
        injection heq with h1 _
        exact absurd h1 h
      · next heq =>
        injection heq with h1 _
        exact absurd h1 hm
      · rfl
    rw [h1, dropMinus_cons c cs hm]

/-- The special forms reject heads other than `i`/`n`
(case-insensitively). -/
lemma specialBody_none (c : Char) (cs : Str) (hi : c.toLower ≠ 'i') (hn : c.toLower ≠ 'n') :
    specialBody (c :: cs) = none := by
  unfold specialBody
  have e1 : matchCI (chars "infinity") (c :: cs) = none := by
    have hpat : chars "infinity" = 'i' :: chars "nfinity" := rfl
    rw [hpat]
    simp only [matchCI]
    rw [if_neg hi]
  have e2 : matchCI (chars "inf") (c :: cs) = none := by
    have hpat : chars "inf" = 'i' :: chars "nf" := rfl
    rw [hpat]
    simp only [matchCI]
    rw [if_neg hi]
  have e3 : matchCI (chars "nan") (c :: cs) = none := by
    have hpat : chars "nan" = 'n' :: chars "an" := rfl
    rw [hpat]
    simp only [matchCI]
    rw [if_neg hn]
  rw [e1, e2, e3]

/-- The decimal body rejects heads that are neither digits nor the
point. -/
lemma decBody_none (c : Char) (cs : Str) (hd : c.isDigit = false) (hdot : c ≠ '.') :
    decBody (c :: cs) = none := by
  have ht : (c :: cs).takeWhile Char.isDigit = [] := by
    simp [List.takeWhile_cons, hd]
  have hw : (c :: cs).dropWhile Char.isDigit = c :: cs := by
    simp [List.dropWhile_cons, hd]
  simp only [decBody]
  rw [ht, hw]
  split
  · next r heq =>
    injection heq with h1 _
    exact absurd h1 hdot
  · simp

/-- Combination: no number and no special form starts with such a head. -/
lemma decOrSpecial_none (c : Char) (cs : Str) (hd : c.isDigit = false) (hdot : c ≠ '.')
    (hi : c.toLower ≠ 'i') (hn : c.toLower ≠ 'n') :
    decOrSpecial (c :: cs) = none := by
  unfold decOrSpecial
  rw [decBody_none c cs hd hdot, specialBody_none c cs hi hn]

/-- The hexadecimal head shape behind `hexStart`. -/
lemma hexStart_shape (u : Str) (hu : hexStart u = true) :
    ∃ x r, u = '0' :: x :: r ∧ (x = 'x' ∨ x = 'X') := by
  unfold hexStart at hu
  split at hu
  · next x r => exact ⟨x, r, rfl, by simpa using hu⟩
  · cases hu

/-- The decimal grammar consumes only the leading `0` of a hexadecimal
literal, leaving the `x` unread. -/
lemma decOrSpecial_hex (x : Char) (r : Str) (hx : x = 'x' ∨ x = 'X') :
    decOrSpecial ('0' :: x :: r) = some (x :: r) := by
  rcases hx with rfl | rfl <;> rfl

/-- C10 counterexample: the two classifiers disagree on `"+1"` — `strtod`
accepts an optional leading plus sign, `from_chars` does not. -/
theorem numeric_classifiers_disagree :
    string_is_numeric (chars "+1") = false ∧ isNumeric (chars "+1") = true :=
  ⟨by decide, by decide⟩

/-- C10 amended: `string_is_numeric` (the `from_chars` classifier) is
strictly stronger than the legacy `isNumeric` (the `strtod` classifier):
every string the new classifier accepts, the legacy one accepts too; the
converse fails (e.g. on `"+1"`, leading whitespace, or hexadecimal
forms). -/
theorem string_is_numeric_imp_isNumeric (s : Str) (h : string_is_numeric s = true) :
    isNumeric s = true := by
  have hfc : fromCharsParse s = some [] := by
    unfold string_is_numeric at h
    cases hf : fromCharsParse s with
    | none =>
      rw [hf] at h
      cases h
    | some r =>
      rw [hf] at h
      have hr : r = [] := by simpa using h
      subst hr
      rfl
  cases s with
  | nil =>
    have hnone : fromCharsParse ([] : Str) = none := rfl
    rw [hnone] at hfc
    cases hfc
  | cons c cs =>
    unfold fromCharsParse at hfc
    by_cases hplus : c = '+'
    · subst hplus
      have hdm : dropMinus ('+' :: cs) = '+' :: cs := rfl
      rw [hdm] at hfc
      rw [decOrSpecial_none '+' cs (by decide) (by decide) (by decide) (by decide)] at hfc
      cases hfc
    · by_cases hsp : isSpaceCh c = true
      · have hfacts : c.isDigit = false ∧ c ≠ '.' ∧ c.toLower ≠ 'i' ∧ c.toLower ≠ 'n' ∧
            c ≠ '-' := by
          simp only [isSpaceCh, Bool.or_eq_true, beq_iff_eq] at hsp
          rcases hsp with ((((h | h) | h) | h) | h) | h <;> subst h <;>
            exact ⟨by decide, by decide, by decide, by decide, by decide⟩
        rw [dropMinus_cons c cs hfacts.2.2.2.2] at hfc
        rw [decOrSpecial_none c cs hfacts.1 hfacts.2.1 hfacts.2.2.1 hfacts.2.2.2.1] at hfc
        cases hfc
      · have hdw : (c :: cs).dropWhile isSpaceCh = c :: cs := by
          rw [List.dropWhile_cons]
          simp [hsp]
        simp only [isNumeric, strtodParse]
        rw [hdw, dropSign_eq_dropMinus c cs hplus]
        by_cases hhex : hexStart (dropMinus (c :: cs)) = true
        · exfalso
          obtain ⟨x, r, hu, hx⟩ := hexStart_shape _ hhex
          rw [hu, decOrSpecial_hex x r hx] at hfc
          cases hfc
        · rw [if_neg hhex, hfc]
          rfl

/-- Witness for C10 (amended) on `"1.5"`. -/
theorem string_is_numeric_imp_isNumeric_witness :
    string_is_numeric (chars "1.5") = true ∧ isNumeric (chars "1.5") = true :=
  ⟨by decide, string_is_numeric_imp_isNumeric (chars "1.5") (by decide)⟩

end DiffNumerics
